import Mathlib

/-!
Verification development for the `node-closurebuilder` repository.

Two source components are embedded:
* `lib/requirechecker.js` (the `RequireChecker`): token-stream identifier
  extraction (`getFileIdsMap`), namespace resolution against a provide
  registry, and per-file missing/unnecessary require computation
  (`getWrongRequiresInFile`, `getWrongRequires`).
* `lib/moduledepswriter.js` (the `ModuleDepsWriter`): bundle artifact
  rendering (`_getDepFileContent`, `_getDepFileContentInternal`), the
  recursive parent-before-child artifact writing (`_createDepFiles`),
  the `build` control flow, and the writer state machine of the generated
  asynchronous loader script (`writeNextScript` / the `loadFile` callback).

JavaScript strings are modelled as Lean `String` (code points coincide with
UTF-16 units on the BMP, which covers every string involved).  JavaScript
objects used as string-keyed sets are modelled as insertion-ordered
duplicate-free `List String`; the memo caches (`_jsCache`, `_docCache`) are
association lists `String → Option String` where an absent key models JS
`undefined` and a `none` value models JS `null`.  Node-style callback errors
are modelled as `Option String` results.
-/

/-! ## JavaScript string ordering and `Array.prototype.sort` -/

/-- Lexicographic `<` on code units, as used by the JS `<` operator and by the
default `Array.prototype.sort` comparator. -/
def jsStrLtL : List Char → List Char → Bool
  | [], [] => false
  | [], _ :: _ => true
  | _ :: _, [] => false
  | a :: as, b :: bs =>
    if a.val < b.val then true
    else if b.val < a.val then false
    else jsStrLtL as bs

/-- JS string `<`. -/
def jsStrLt (a b : String) : Bool :=
  jsStrLtL a.toList b.toList

/-- JS string `≤` (used as the "comes no later than" relation of an ascending
sort with the default comparator). -/
def jsLe (a b : String) : Bool :=
  !(jsStrLt b a)

/-- Insert into a list sorted by `le` (model of the result of
`Array.prototype.sort` with comparator-induced order `le`). -/
def insertLe (le : String → String → Bool) (a : String) : List String → List String
  | [] => [a]
  | b :: bs => if le a b then a :: b :: bs else b :: insertLe le a bs

/-- Sorting model for `Array.prototype.sort`: produces a permutation of the
input that is sorted by `le`. -/
def jsSort (le : String → String → Bool) : List String → List String
  | [] => []
  | a :: as => insertLe le a (jsSort le as)

theorem mem_insertLe (le : String → String → Bool) (a x : String) :
    ∀ l : List String, x ∈ insertLe le a l ↔ x = a ∨ x ∈ l := by
  intro l
  induction l with
  | nil => simp [insertLe]
  | cons b bs ih =>
    by_cases h : le a b = true
    · simp [insertLe, h]
    · simp only [insertLe, h, if_neg]
      simp [ih]
      tauto

theorem mem_jsSort (le : String → String → Bool) (x : String) :
    ∀ l : List String, x ∈ jsSort le l ↔ x ∈ l := by
  intro l
  induction l with
  | nil => simp [jsSort]
  | cons a as ih =>
    simp [jsSort, mem_insertLe, ih]

/-! ## JS objects used as sets and the memo caches -/

/-- `if (!set[k]) { set[k] = 1; }` on a JS object used as a set of string
keys: insertion-ordered, duplicate-free. -/
def insertKey (m : List String) (k : String) : List String :=
  if m.contains k then m else m ++ [k]

/-- The memo caches `_jsCache` / `_docCache`: key absent = JS `undefined`,
value `none` = JS `null` (looked up and found unresolvable before),
value `some p` = previously resolved to provide `p`. -/
abbrev JsCache := List (String × Option String)

def cacheLookup (c : JsCache) (k : String) : Option (Option String) :=
  (c.find? (fun e => e.1 == k)).map (fun e => e.2)

def cacheInsert (c : JsCache) (k : String) (v : Option String) : JsCache :=
  c ++ [(k, v)]

/-! ## RequireChecker: token and comment records (esprima output shape) -/

structure Token where
  type : String
  value : String
deriving DecidableEq, Repr

structure JsComment where
  type : String
  value : String
deriving DecidableEq, Repr

/-- `jsSource.syntaxTree` with its `tokens` and `comments` fields; each field
is optional (the code guards with a truthiness check on the field). -/
structure SyntaxTree where
  tokens : Option (List Token)
  comments : Option (List JsComment)
deriving DecidableEq, Repr

structure JsSource where
  path : String
  provides : List String
  requires : List String
  syntaxTree : Option SyntaxTree
deriving DecidableEq, Repr

/-! ## `RequireChecker.getFileIdsMap` -/

/-- Completion of an accumulated identifier chain: `id.indexOf('prototype')`
followed by `id.splice(index, id.length - index)` when found, then
`id.join('.')`.  `List.indexOf` returns the length when absent, so the
`index < length` test mirrors the JS `-1 < index` test. -/
def chainId (id : List String) : String :=
  let index := id.indexOf "prototype"
  String.intercalate "." (if index < id.length then id.take index else id)

/-- One step of the `tokens.forEach` loop of `getFileIdsMap`.  State is
`(idsMap, id)`: the set of recorded chains and the pending chain. -/
def getFileIdsStep (acc : List String × List String) (token : Token) : List String × List String :=
  if token.type == "Identifier" then
    (acc.1, acc.2 ++ [token.value])
  else if !(token.type == "Punctuator" && token.value == ".") && !acc.2.isEmpty then
    (insertKey acc.1 (chainId acc.2), [])
  else
    acc

/-- `RequireChecker.getFileIdsMap(tokens)`: the recorded used-identifier
chains, in insertion order.  A chain still pending when the stream ends is
discarded (the `forEach` simply finishes). -/
def getFileIdsMap (tokens : List Token) : List String :=
  (tokens.foldl getFileIdsStep ([], [])).1

/-! ## Code-identifier resolution (`getWrongRequiresInFile`, token branch) -/

/-- `\w` or `$`, i.e. the negation of the JS regex class `[^\w\$]`. -/
def isWordOrDollar (c : Char) : Bool :=
  c.isAlphanum || c == '_' || c == '$'

/-- The match test of the `provides.every` loop:
`0 == id.indexOf(provide) && (id.length == provide.length || /[^\w\$]/.test(id[provide.length]))`. -/
def idMatches (id provide : String) : Bool :=
  provide.toList.isPrefixOf id.toList &&
    (id.toList.length == provide.toList.length ||
      (match (id.toList.drop provide.toList.length).head? with
       | some c => !(isWordOrDollar c)
       | none => false))

/-- First provide (in the given candidate order) matching `id`; the
`provides.every(...)` loop stops at the first match. -/
def resolveId (id : String) (provides : List String) : Option String :=
  provides.find? (fun provide => idMatches id provide)

/-- One iteration of the `for (id in usedNamespacesMap)` resolution loop,
threading the `map` under construction and `_jsCache`. -/
def resolveStep (provides : List String) (acc : List String × JsCache) (id : String) :
    List String × JsCache :=
  match cacheLookup acc.2 id with
  | some (some p) => (insertKey acc.1 p, acc.2)
  | some none => acc
  | none =>
    match resolveId id provides with
    | some p => (insertKey acc.1 p, cacheInsert acc.2 id (some p))
    | none => (acc.1, cacheInsert acc.2 id none)

/-- Resolution of every used identifier chain against the provide registry,
producing the resolved `usedNamespacesMap` and the updated `_jsCache`. -/
def resolveIds (provides : List String) (ids : List String) (jsCache : JsCache) :
    List String × JsCache :=
  ids.foldl (resolveStep provides) ([], jsCache)

/-! ## Doc-type resolution (`getWrongRequiresInFile`, comment branch) -/

/-- Elements of the regular expression built for a provide:
`new RegExp('[^A-Za-z0-9_\.\$]' + escaped + '[^A-Za-z0-9_\$]')`. -/
inductive RElem where
  | lit (c : Char)
  | anyChar
  | endAnchor
deriving DecidableEq, Repr

/-- `provide.replace('.', '\\.')` / `.replace('$', '\\$')`: JS string
`replace` with a string pattern replaces only the first occurrence. -/
def replaceFirstChar : List Char → Char → List Char → List Char
  | [], _, _ => []
  | a :: as, t, r => if a == t then r ++ as else a :: replaceFirstChar as t r

/-- The escaped provide embedded into the regex source. -/
def escapeProvide (provide : String) : List Char :=
  replaceFirstChar (replaceFirstChar provide.toList '.' ['\\', '.']) '$' ['\\', '$']

/-- Parse the escaped provide as a regex fragment: `\.`/`\$` are literals, an
unescaped `.` matches any character, an unescaped `$` is the end anchor
(every `.`/`$` after the first is left unescaped by the JS code), every other
character is a literal. -/
def parseRegexElems : List Char → List RElem
  | [] => []
  | '\\' :: c :: rest => RElem.lit c :: parseRegexElems rest
  | '.' :: rest => RElem.anyChar :: parseRegexElems rest
  | '$' :: rest => RElem.endAnchor :: parseRegexElems rest
  | c :: rest => RElem.lit c :: parseRegexElems rest

/-- Match a regex fragment against the front of the input, returning the
remaining input.  The end anchor is zero-width and succeeds only at the end of
the input. -/
def seqMatchesAt : List RElem → List Char → Option (List Char)
  | [], s => some s
  | RElem.endAnchor :: es, s => if s.isEmpty then seqMatchesAt es s else none
  | _ :: _, [] => none
  | RElem.lit l :: es, c :: cs => if c == l then seqMatchesAt es cs else none
  | RElem.anyChar :: es, _ :: cs => seqMatchesAt es cs

/-- The class `[^A-Za-z0-9_\.\$]` preceding the escaped provide. -/
def docClass1 (c : Char) : Bool :=
  !(c.isAlphanum || c == '_' || c == '.' || c == '$')

/-- The class `[^A-Za-z0-9_\$]` following the escaped provide. -/
def docClass2 (c : Char) : Bool :=
  !(c.isAlphanum || c == '_' || c == '$')

/-- Does `[^A-Za-z0-9_\.\$]` + fragment + `[^A-Za-z0-9_\$]` match at the
current position? -/
def docMatchesHere (es : List RElem) : List Char → Bool
  | [] => false
  | c :: rest =>
    docClass1 c &&
      (match seqMatchesAt es rest with
       | some (c2 :: _) => docClass2 c2
       | some [] => false
       | none => false)

/-- `String.prototype.search` returning whether a match exists anywhere. -/
def docSearch (es : List RElem) : List Char → Bool
  | [] => false
  | c :: rest => docMatchesHere es (c :: rest) || docSearch es rest

/-- The doc-type match test: the constructed regex searched in
`' ' + id + ' '`. -/
def docMatches (id provide : String) : Bool :=
  docSearch (parseRegexElems (escapeProvide provide)) (' ' :: (id.toList ++ [' ']))

/-- First provide (in candidate order) whose boundary-anchored regex matches
the doc-type string. -/
def resolveDocId (id : String) (provides : List String) : Option String :=
  provides.find? (fun provide => docMatches id provide)

/-- One iteration of the `for (id in jsdocTypesMap)` resolution loop,
threading `_docCache`. -/
def resolveDocStep (provides : List String) (acc : List String × JsCache) (id : String) :
    List String × JsCache :=
  match cacheLookup acc.2 id with
  | some (some p) => (insertKey acc.1 p, acc.2)
  | some none => acc
  | none =>
    match resolveDocId id provides with
    | some p => (insertKey acc.1 p, cacheInsert acc.2 id (some p))
    | none => (acc.1, cacheInsert acc.2 id none)

/-- `'Block' == comment.type && /^\*[^\*]/.test(comment.value)`: a true doc
comment (body starts with `*` followed by a non-`*`), excluding banner
comments. -/
def isDocComment (c : JsComment) : Bool :=
  c.type == "Block" &&
    (match c.value.toList with
     | '*' :: c2 :: _ => !(c2 == '*')
     | _ => false)

/-- The `syntaxTree.comments.forEach` collection of raw doc types, with
`jsdocParser.getTypes` passed in as the collaborator extractor. -/
def collectDocTypes (getTypes : String → List String) (comments : List JsComment) :
    List String :=
  comments.foldl
    (fun m c => if isDocComment c then (getTypes c.value).foldl insertKey m else m) []

/-- Resolution of collected doc types against the registry, producing the
resolved `jsdocTypesMap` and the updated `_docCache`. -/
def resolveDocTypes (getTypes : String → List String) (provides : List String)
    (comments : List JsComment) (docCache : JsCache) : List String × JsCache :=
  (collectDocTypes getTypes comments).foldl (resolveDocStep provides) ([], docCache)

/-! ## `getWrongRequiresInFile` -/

structure CheckResult where
  missingRequires : List String
  unnecessaryRequires : List String
deriving DecidableEq, Repr

/-- The resolved `usedNamespacesMap` of a parsed file (token branch guarded by
`if (syntaxTree.tokens)`). -/
def usedNamespacesMapOf (provides : List String) (st : SyntaxTree) (jsCache : JsCache) :
    List String × JsCache :=
  match st.tokens with
  | some tokens => resolveIds provides (getFileIdsMap tokens) jsCache
  | none => ([], jsCache)

/-- The resolved `jsdocTypesMap` of a parsed file (comment branch guarded by
`if (syntaxTree.comments)`). -/
def jsdocTypesMapOf (getTypes : String → List String) (provides : List String)
    (st : SyntaxTree) (docCache : JsCache) : List String × JsCache :=
  match st.comments with
  | some comments => resolveDocTypes getTypes provides comments docCache
  | none => ([], docCache)

/-- `RequireChecker.prototype.getWrongRequiresInFile(jsSource, provides)`.
`getTypes` is the `jsdocParser.getTypes` collaborator; the two caches are the
checker instance's `_jsCache` and `_docCache`, returned updated. -/
def getWrongRequiresInFile (getTypes : String → List String) (jsCache docCache : JsCache)
    (jsSource : JsSource) (provides : List String) : CheckResult × JsCache × JsCache :=
  match jsSource.syntaxTree with
  | none => (⟨[], []⟩, jsCache, docCache)
  | some st =>
    let used := usedNamespacesMapOf provides st jsCache
    let doc := jsdocTypesMapOf getTypes provides st docCache
    let unnecessaryRequires :=
      jsSource.requires.filter (fun r => !(used.1.contains r) && !(doc.1.contains r))
    let provideRequireMap := jsSource.provides ++ jsSource.requires
    let missingRequires :=
      used.1.filter (fun id => !(provideRequireMap.contains id))
    (⟨jsSort jsLe missingRequires, jsSort jsLe unnecessaryRequires⟩, used.2, doc.2)

/-- The descending lexicographic provide order of `getWrongRequires`:
`provides.sort(function(a, b) { return a < b ? 1 : a > b ? -1 : 0; })`. -/
def sortProvidesDesc (provides : List String) : List String :=
  jsSort (fun a b => !(jsStrLt a b)) provides

example :
    getFileIdsMap
      [⟨"Identifier", "ns"⟩, ⟨"Punctuator", "."⟩, ⟨"Identifier", "Foo"⟩,
       ⟨"Punctuator", ";"⟩] = ["ns.Foo"] := by decide

example : sortProvidesDesc ["a.b", "a.b.C"] = ["a.b.C", "a.b"] := by decide

example : resolveId "a.b.C.d" ["a.b.C", "a.b"] = some "a.b.C" := by decide

example : docMatches "Array.<ns.Foo>" "ns.Foo" = true := by decide

/-! ## ModuleDepsWriter: context and module tree -/

/-- The parts of the `ModuleDepsWriter` instance and its `ModuleParser`
consulted while rendering: the JSON-encoded defines/module-info/module-URI
values (produced by `JSON.stringify`, a collaborator), the tree-wide URI and
output-path settings, the `_loadAsync` flag, and the node `path` collaborators
`dirname`, `resolve` and `relative`. -/
structure WriterCtx where
  definesJson : String
  moduleInfoJson : String
  moduleUrisJson : String
  productionUri : String
  outputPathPrefix : String
  loadAsync : Bool
  dirname : String → String
  resolvePath : String → String
  relative : String → String → String

/-- One entry of a module's resolved dependency list: a source with its path
and `isModule` flag. -/
structure SrcDep where
  path : String
  isModule : Bool
deriving DecidableEq, Repr

/-- The data of a `JsModule` visible to a renderer: `name`, `getDeps()`, and
the nullness of `getParent()`. -/
structure ModuleView where
  name : String
  deps : List SrcDep
  hasParent : Bool
deriving DecidableEq, Repr

/-- A `JsModule` tree node: its view, the optional custom wrapper
(`module.getWrapper()`, invoked as `wrapper(this, module)`), and
`getSubModules()`. -/
structure JsModule where
  view : ModuleView
  wrapper : Option (WriterCtx → ModuleView → String)
  subModules : List JsModule

/-! ## JSON stringification of the computed URI lists (collaborator model) -/

def jsonEscapeChar (c : Char) : List Char :=
  if c == '"' || c == '\\' then ['\\', c] else [c]

def jsonQuote (s : String) : String :=
  "\"" ++ String.mk (s.toList.foldr (fun c acc => jsonEscapeChar c ++ acc) []) ++ "\""

def jsonStringArray (l : List String) : String :=
  "[" ++ String.intercalate "," (l.map jsonQuote) ++ "]"

def jsonDepsArr (l : List (String × Bool)) : String :=
  "[" ++
    String.intercalate ","
      (l.map (fun d =>
        "[" ++ jsonQuote d.1 ++ "," ++ (if d.2 then "true" else "false") ++ "]")) ++
    "]"

/-! ## `_getDepFileContent` / `_getDepFileContentInternal` -/

/-- `path.dirname(this._parser.productionUri + module.name + '.js')`. -/
def webUriPrefixOf (ctx : WriterCtx) (v : ModuleView) : String :=
  ctx.dirname (ctx.productionUri ++ v.name ++ ".js")

/-- `path.dirname(path.resolve(this._parser.outputPathPrefix + module.name + '.js'))`. -/
def depFilenameOf (ctx : WriterCtx) (v : ModuleView) : String :=
  ctx.dirname (ctx.resolvePath (ctx.outputPathPrefix ++ v.name ++ ".js"))

/-- The `%files%` substitution value:
`JSON.stringify(module.getDeps().map(source => webUriPrefix + '/' + path.relative(depFilename, source.path)))`. -/
def depFiles (ctx : WriterCtx) (v : ModuleView) : String :=
  jsonStringArray
    (v.deps.map (fun s => webUriPrefixOf ctx v ++ "/" ++ ctx.relative (depFilenameOf ctx v) s.path))

/-- The root-only header installing defines and the module graphs. -/
def depFileHeader : String :=
  "CLOSURE_DEFINES=%defines%;\nCLOSURE_NO_DEPS=true;\nMODULE_USE_DEBUG_MODE=true;\nMODULE_INFO=%moduleInfo%;\nMODULE_URIS=%moduleUris%;\n\n"

/-- The generated bootstrap text shared by both load strategies (everything of
the template literal before the strategy-specific part). -/
def loaderScriptStart : String :=
"(function(deps) \x7b
  var headElement = document.getElementsByTagName(\x27head\x27)[0];

  if (!headElement) \x7b
    return;
  \x7d

  var writeScript = function(scriptText, src, isModule) \x7b
    if (!scriptText) \x7b
      return;
    \x7d

    if (isModule) \x7b
      scriptText = \x27goog.loadModule(function(exports) \x7b\x27 +
          \x27\"use strict\";\x27 + scriptText +
          \x27\\n\x27 +  // terminate any trailing single line comment.
          \x27;return exports\x27 +
          \x27\x7d);\x27 +
          \x27\\n//# sourceURL=\x27 + src + \x27\\n\x27;
    \x7d else \x7b
      scriptText += \x27\\n//# sourceURL=\x27 + src;
    \x7d

    var scriptElement = document.createElement(\x27script\x27);

    try \x7b
      // doesn\x27t work on ie...
      scriptElement.appendChild(document.createTextNode(scriptText));
    \x7d catch(e) \x7b
      // IE has funky script nodes
      scriptElement.text = data;
    \x7d

    headElement.appendChild(scriptElement);
  \x7d;
"

/-- The asynchronous-strategy body (emitted when `this._loadAsync`). -/
def asyncLoaderBody : String :=
"  var loadFile = function(src, index, callback) \x7b
    var xhr = new XMLHttpRequest();
    xhr.open(\x27get\x27, src);
    xhr.send();
    xhr.onreadystatechange = function() \x7b
      if (4 != xhr.readyState) \x7b
        return;
      \x7d

      var responseText = 400 > xhr.status && xhr.responseText ?
          xhr.responseText : null;
      callback(index, responseText);
    \x7d;
  \x7d;

  var loadedIndex = 0;
  var scriptTexts = [];
  scriptTexts.length = deps.length;
  var writeNextScript = function() \x7b
    if (loadedIndex >= deps.length) \x7b
      if (\x27function\x27 == typeof window.onGoogleClosureSourceLoad) \x7b
        window.onGoogleClosureSourceLoad();
      \x7d

      return;
    \x7d

    if (undefined === scriptTexts[loadedIndex]) \x7b
      return;
    \x7d

    writeScript(scriptTexts[loadedIndex], deps[loadedIndex][0],
        deps[loadedIndex][1]);
    loadedIndex++;
    writeNextScript();
  \x7d;

  for (var i = 0; i < deps.length; i++) \x7b
    loadFile(deps[i][0], i, function(index, scriptText) \x7b
      scriptTexts[index] = scriptText;
      writeNextScript();
    \x7d);
  \x7d
"

/-- The synchronous-strategy body (emitted when not `this._loadAsync`). -/
def syncLoaderBody : String :=
"  var loadFileSync = function(src) \x7b
    try \x7b
      var xhr = new XMLHttpRequest();
      xhr.open(\x27get\x27, src, false);
      xhr.send();

      return xhr.status == 0 || xhr.status == 200 ?
          xhr.responseText : null;
    \x7d catch (err) \x7b
      return null;
    \x7d
  \x7d;

  for (var i = 0; i < deps.length; i++) \x7b
    var src = deps[i][0];
    var isModule = deps[i][1];
    var scriptText = loadFileSync(src);
    writeScript(scriptText, src, isModule);
  \x7d
"

/-- The closing of the generated script: `})(${depsArr});`. -/
def loaderScriptEnd (depsArr : String) : String :=
  "\x7d)(" ++ depsArr ++ ");\n"

/-- `ModuleDepsWriter.prototype._getDepFileContentInternal(module)`. -/
def getDepFileContentInternal (ctx : WriterCtx) (v : ModuleView) : String :=
  let result := if v.hasParent then "" else depFileHeader
  let depsArr :=
    jsonDepsArr
      (v.deps.map (fun s =>
        (webUriPrefixOf ctx v ++ "/" ++ ctx.relative (depFilenameOf ctx v) s.path,
         s.isModule)))
  result ++ loaderScriptStart ++
    (if ctx.loadAsync then asyncLoaderBody else syncLoaderBody) ++
    loaderScriptEnd depsArr

/-- The six placeholder substitutions applied to the rendered text (global
string replacement, in source order). -/
def applyPlaceholders (ctx : WriterCtx) (v : ModuleView) (wrapper : String) : String :=
  (((((wrapper.replace "%defines%" ctx.definesJson).replace
      "%moduleInfo%" ctx.moduleInfoJson).replace
      "%moduleUris%" ctx.moduleUrisJson).replace
      "%name%" v.name).replace
      "%productionUri%" ctx.productionUri).replace
      "%files%" (depFiles ctx v)

/-- `ModuleDepsWriter.prototype._getDepFileContent(module)`: render via the
custom wrapper when present, the internal template otherwise, then apply the
placeholder substitutions. -/
def getDepFileContent (ctx : WriterCtx) (m : JsModule) : String :=
  let wrapper :=
    match m.wrapper with
    | some w => w ctx m.view
    | none => getDepFileContentInternal ctx m.view
  applyPlaceholders ctx m.view wrapper

/-! ## `_createDepFiles`: serialized parent-before-child artifact writing

`utils.writeFile(content, filename, cb)` is modelled by
`write : String → String → Option String` (content, filename, error or
`none`); `async.eachSeries` runs the children strictly in order, stopping at
the first error.  The result is the list of attempted `(filename, content)`
writes, in order, together with the error passed to the callback (if any). -/

mutual

def createDepFiles (write : String → String → Option String) (ctx : WriterCtx)
    (m : JsModule) : List (String × String) × Option String :=
  let content := getDepFileContent ctx m
  let filename := ctx.outputPathPrefix ++ m.view.name ++ ".js"
  match write content filename with
  | some err => ([(filename, content)], some err)
  | none =>
    let rest := createDepFilesList write ctx m.subModules
    ((filename, content) :: rest.1, rest.2)
termination_by sizeOf m
decreasing_by all_goals (simp_wf; (try cases m); (try simp); (try omega))

def createDepFilesList (write : String → String → Option String) (ctx : WriterCtx) :
    List JsModule → List (String × String) × Option String
  | [] => ([], none)
  | s :: ss =>
    let first := createDepFiles write ctx s
    match first.2 with
    | some err => (first.1, some err)
    | none =>
      let rest := createDepFilesList write ctx ss
      (first.1 ++ rest.1, rest.2)
termination_by ms => sizeOf ms
decreasing_by all_goals (simp_wf; (try simp); (try omega))

end

mutual

/-- The depth-first, parent-first order of bundle artifacts
(`(filename, content)` per bundle). -/
def preorderPairs (ctx : WriterCtx) (m : JsModule) : List (String × String) :=
  (ctx.outputPathPrefix ++ m.view.name ++ ".js", getDepFileContent ctx m) ::
    preorderPairsList ctx m.subModules
termination_by sizeOf m
decreasing_by all_goals (simp_wf; (try cases m); (try simp); (try omega))

def preorderPairsList (ctx : WriterCtx) : List JsModule → List (String × String)
  | [] => []
  | s :: ss => preorderPairs ctx s ++ preorderPairsList ctx ss
termination_by ms => sizeOf ms
decreasing_by all_goals (simp_wf; (try simp); (try omega))

end

/-- Prefix of a list up to and including the first element satisfying `p`. -/
def takeThrough (p : α → Bool) : List α → List α
  | [] => []
  | a :: as => if p a then [a] else a :: takeThrough p as

/-- `ModuleDepsWriter.prototype.build(opt_callback)`: parse (collaborator,
result passed in), then — when a cache is configured — call `cache.save`,
whose callback-reported failure is only logged via `console.error`; then write
the artifacts.  Returns `(callback result, console.error log, attempted
writes)`. -/
def buildResult (hasCache : Bool) (saveResult : Option String)
    (parseResult : Except String JsModule) (write : String → String → Option String)
    (ctx : WriterCtx) : Option String × List String × List (String × String) :=
  match parseResult with
  | Except.error err => (some err, [], [])
  | Except.ok rootModule =>
    let log :=
      if hasCache then (match saveResult with | some err => [err] | none => []) else []
    ((createDepFiles write ctx rootModule).2, log, (createDepFiles write ctx rootModule).1)

/-! ## The generated async loader's writer state machine

The closures of the asynchronous strategy (`scriptTexts`, `loadedIndex`,
`writeNextScript`, and the `loadFile` completion callback) are modelled as an
explicit state machine: one slot per dependency (`none` = still pending,
`some t` = fetch completed with text `t`, where a failed fetch's `null` is the
empty text) plus the next-write index.  Events record each executed
`writeScript` injection and the invocation point of the global completion
hook `window.onGoogleClosureSourceLoad`. -/

inductive LoadEv where
  | write (index : Nat)
  | hook
deriving DecidableEq, Repr

/-- `writeNextScript()`: from `loadedIndex`, write consecutively available
entries, stopping at the first pending slot; past the last index, invoke the
completion hook.  `writeScript` skips an empty text but the index still
advances. -/
def writeNextScript (scriptTexts : List (Option String)) (loadedIndex : Nat) :
    Nat × List LoadEv :=
  if scriptTexts.length ≤ loadedIndex then
    (loadedIndex, [LoadEv.hook])
  else
    match scriptTexts[loadedIndex]? with
    | none => (loadedIndex, [])
    | some none => (loadedIndex, [])
    | some (some scriptText) =>
      let r := writeNextScript scriptTexts (loadedIndex + 1)
      (r.1, (if scriptText == "" then [] else [LoadEv.write loadedIndex]) ++ r.2)
termination_by scriptTexts.length - loadedIndex
decreasing_by simp_wf; omega

structure LoaderState where
  scriptTexts : List (Option String)
  loadedIndex : Nat
  output : List LoadEv
deriving DecidableEq, Repr

/-- The fetch-completion callback passed to `loadFile`:
`scriptTexts[index] = scriptText; writeNextScript();`. -/
def loadCallback (s : LoaderState) (index : Nat) (scriptText : String) : LoaderState :=
  ⟨s.scriptTexts.set index (some scriptText),
   (writeNextScript (s.scriptTexts.set index (some scriptText)) s.loadedIndex).1,
   s.output ++ (writeNextScript (s.scriptTexts.set index (some scriptText)) s.loadedIndex).2⟩

/-- A run of the generated loader over `n` dependencies whose fetches complete
in the order given by `completions` (index, text). -/
def runLoader (n : Nat) (completions : List (Nat × String)) : LoaderState :=
  completions.foldl (fun s c => loadCallback s c.1 c.2) ⟨List.replicate n none, 0, []⟩

/-! ## Helper lemmas -/

theorem getFileIdsStep_fst (acc : List String × List String) (t : Token)
    (h : (t.type == "Identifier" || (t.type == "Punctuator" && t.value == ".")) = true) :
    (getFileIdsStep acc t).1 = acc.1 := by
  unfold getFileIdsStep
  cases h1 : (t.type == "Identifier") with
  | true => simp
  | false =>
    have h2 : (t.type == "Punctuator" && t.value == ".") = true := by
      simpa [h1] using h
    simp [h1, h2]

theorem perm_pair_eq {a b : String} (hab : a ≠ b) {l : List String}
    (h : l.Perm [a, b]) : l = [a, b] ∨ l = [b, a] := by
  have hlen : l.length = 2 := by simpa using h.length_eq
  match l, hlen with
  | [x, y], _ =>
    have hx : x ∈ [a, b] := h.subset (by simp)
    have hy : y ∈ [a, b] := h.subset (by simp)
    have hnd : ([x, y] : List String).Nodup := h.nodup_iff.mpr (by simp [hab])
    have hxy : x ≠ y := by simpa using hnd
    simp only [List.mem_cons, List.mem_singleton, List.not_mem_nil, or_false] at hx hy
    rcases hx with rfl | rfl <;> rcases hy with rfl | rfl
    · exact absurd rfl hxy
    · exact Or.inl rfl
    · exact Or.inr rfl
    · exact absurd rfl hxy

/-! ## Claims about the RequireChecker -/

/-- C8: a source file without a parsed form (`jsSource.syntaxTree` absent)
yields empty `missingRequires` and `unnecessaryRequires` lists, leaves both
caches untouched, and signals no error (the function is total and returns the
empty result). -/
theorem checkFile_no_syntaxTree (getTypes : String → List String)
    (jsCache docCache : JsCache) (jsSource : JsSource) (provides : List String)
    (h : jsSource.syntaxTree = none) :
    getWrongRequiresInFile getTypes jsCache docCache jsSource provides =
      (⟨[], []⟩, jsCache, docCache) := by
  simp [getWrongRequiresInFile, h]

theorem checkFile_no_syntaxTree_witness :
    getWrongRequiresInFile (fun _ => []) [] []
        ⟨"a.js", [], ["x"], none⟩ ["x"] = (⟨[], []⟩, [], []) :=
  checkFile_no_syntaxTree (fun _ => []) [] [] ⟨"a.js", [], ["x"], none⟩ ["x"] rfl

/-- C10: in `getFileIdsMap`, a chain is recorded only when a token that is
neither an identifier nor a `.` punctuator terminates it; appending trailing
identifier or `.` tokens never changes the recorded map, so a dotted chain
that runs to the very end of the token stream is never recorded. -/
theorem usedChains_require_terminator (tokens : List Token) (t : Token)
    (h : (t.type == "Identifier" || (t.type == "Punctuator" && t.value == ".")) = true) :
    getFileIdsMap (tokens ++ [t]) = getFileIdsMap tokens := by
  unfold getFileIdsMap
  rw [List.foldl_append]
  simp only [List.foldl_cons, List.foldl_nil]
  exact getFileIdsStep_fst _ _ h

theorem usedChains_require_terminator_witness :
    ((Token.mk "Identifier" "b").type == "Identifier" ||
      ((Token.mk "Identifier" "b").type == "Punctuator" &&
        (Token.mk "Identifier" "b").value == ".")) = true ∧
    getFileIdsMap
        ([⟨"Identifier", "a"⟩, ⟨"Punctuator", "."⟩] ++ [Token.mk "Identifier" "b"]) =
      getFileIdsMap [⟨"Identifier", "a"⟩, ⟨"Punctuator", "."⟩] :=
  ⟨by decide,
   usedChains_require_terminator [⟨"Identifier", "a"⟩, ⟨"Punctuator", "."⟩]
     (Token.mk "Identifier" "b") (by decide)⟩

/-- The token stream of `a.b.C.prototype.<member>;`. -/
def c5Tokens (member : String) : List Token :=
  [⟨"Identifier", "a"⟩, ⟨"Punctuator", "."⟩, ⟨"Identifier", "b"⟩,
   ⟨"Punctuator", "."⟩, ⟨"Identifier", "C"⟩, ⟨"Punctuator", "."⟩,
   ⟨"Identifier", "prototype"⟩, ⟨"Punctuator", "."⟩, ⟨"Identifier", member⟩,
   ⟨"Punctuator", ";"⟩]

/-- A file using `a.b.C.prototype.<member>`, providing and requiring
nothing. -/
def c5Source (member : String) : JsSource :=
  ⟨"file.js", [], [], some ⟨some (c5Tokens member), none⟩⟩

/-- C5: a completed chain containing a literal `prototype` segment is
truncated just before that segment; consequently a file using
`a.b.C.prototype.<member>`, with `a.b.C` provided elsewhere and not required,
gets exactly `a.b.C` (never the longer chain) in `missingRequires`. -/
theorem prototypeChain_truncated :
    (∀ id : List String, "prototype" ∈ id →
      chainId id = String.intercalate "." (id.take (id.indexOf "prototype"))) ∧
    ∀ member : String,
      (getWrongRequiresInFile (fun _ => []) [] [] (c5Source member)
          (sortProvidesDesc ["a.b.C"])).1 = ⟨["a.b.C"], []⟩ := by
  constructor
  · intro id hmem
    have hlt := List.indexOf_lt_length.mpr hmem
    simp [chainId, hlt]
  · intro member
    rfl

theorem prototypeChain_truncated_witness :
    ("prototype" ∈ ["a", "b", "C", "prototype", "x"] ∧
      chainId ["a", "b", "C", "prototype", "x"] =
        String.intercalate "."
          ((["a", "b", "C", "prototype", "x"] : List String).take
            ((["a", "b", "C", "prototype", "x"] : List String).indexOf "prototype"))) ∧
    (getWrongRequiresInFile (fun _ => []) [] [] (c5Source "method")
        (sortProvidesDesc ["a.b.C"])).1 = ⟨["a.b.C"], []⟩ :=
  ⟨⟨by decide, prototypeChain_truncated.1 ["a", "b", "C", "prototype", "x"] (by decide)⟩,
   prototypeChain_truncated.2 "method"⟩

/-- C2: with the provide registry `{a.b, a.b.C}` (any arrival order), the
descending lexicographic candidate order of `getWrongRequires` makes
code-identifier resolution of `a.b.C.d` return `a.b.C` and never `a.b`, the
match test being prefix + (equal length or non-word-non-`$` next
character). -/
theorem resolve_prefers_most_specific (ps : List String)
    (h : ps.Perm ["a.b", "a.b.C"]) :
    resolveId "a.b.C.d" (sortProvidesDesc ps) = some "a.b.C" ∧
      resolveId "a.b.C.d" (sortProvidesDesc ps) ≠ some "a.b" := by
  rcases perm_pair_eq (by decide) h with rfl | rfl
  · exact ⟨by decide, by decide⟩
  · exact ⟨by decide, by decide⟩

theorem resolve_prefers_most_specific_witness :
    resolveId "a.b.C.d" (sortProvidesDesc ["a.b", "a.b.C"]) = some "a.b.C" ∧
      resolveId "a.b.C.d" (sortProvidesDesc ["a.b", "a.b.C"]) ≠ some "a.b" :=
  resolve_prefers_most_specific ["a.b", "a.b.C"] (List.Perm.refl _)

/-- C6: for a parsed file, a declared require is in `unnecessaryRequires` iff
it is the resolution of no code-identifier usage and no doc-type usage of the
file. -/
theorem unnecessary_iff_unused (getTypes : String → List String)
    (jsCache docCache : JsCache) (jsSource : JsSource) (provides : List String)
    (st : SyntaxTree) (r : String) (h : jsSource.syntaxTree = some st) :
    r ∈ (getWrongRequiresInFile getTypes jsCache docCache jsSource
        provides).1.unnecessaryRequires ↔
      r ∈ jsSource.requires ∧
        r ∉ (usedNamespacesMapOf provides st jsCache).1 ∧
        r ∉ (jsdocTypesMapOf getTypes provides st docCache).1 := by
  simp only [getWrongRequiresInFile, h]
  rw [mem_jsSort]
  simp [List.mem_filter, and_assoc]

theorem unnecessary_iff_unused_witness :
    (JsSource.syntaxTree ⟨"f.js", [], ["goog.unused"], some ⟨some [], none⟩⟩ =
      some ⟨some [], none⟩) ∧
    ("goog.unused" ∈ (getWrongRequiresInFile (fun _ => []) [] []
        ⟨"f.js", [], ["goog.unused"], some ⟨some [], none⟩⟩
        (sortProvidesDesc ["goog.unused"])).1.unnecessaryRequires ↔
      "goog.unused" ∈ (JsSource.requires
          ⟨"f.js", [], ["goog.unused"], some ⟨some [], none⟩⟩) ∧
        "goog.unused" ∉ (usedNamespacesMapOf (sortProvidesDesc ["goog.unused"])
            ⟨some [], none⟩ []).1 ∧
        "goog.unused" ∉ (jsdocTypesMapOf (fun _ => [])
            (sortProvidesDesc ["goog.unused"]) ⟨some [], none⟩ []).1) :=
  ⟨rfl,
   unnecessary_iff_unused (fun _ => []) [] []
     ⟨"f.js", [], ["goog.unused"], some ⟨some [], none⟩⟩
     (sortProvidesDesc ["goog.unused"]) ⟨some [], none⟩ "goog.unused" rfl⟩

/-! ## Claim C1: doc-type usages and the `missing` list -/

/-- The doc-type extractor's output on the example comment (collaborator
`jsdocParser.getTypes`). -/
def c1GetTypes : String → List String := fun _ => ["Array.<ns.Foo>"]

/-- The comment record of `/** @param {Array.<ns.Foo>} x */`. -/
def c1Comment : JsComment := ⟨"Block", "* @param \x7bArray.<ns.Foo>\x7d x "⟩

/-- A file whose only usage of `ns.Foo` is the doc-comment type, with
`ns.Foo` neither provided nor required by it. -/
def c1Source : JsSource := ⟨"a.js", [], [], some ⟨some [], some [c1Comment]⟩⟩

/-- The same file, but declaring `goog.require('ns.Foo')`. -/
def c1SourceRequiring : JsSource :=
  ⟨"a.js", [], ["ns.Foo"], some ⟨some [], some [c1Comment]⟩⟩

/-- C1 counterexample: the claim says the doc-comment type usage `ns.Foo`
(resolved, unprovided, unrequired) lands in `missingRequires`; on the code it
does not — the `missing` loop iterates only the code-identifier
`usedNamespacesMap`, never `jsdocTypesMap`. -/
theorem docType_not_in_missing_cex :
    ¬ ("ns.Foo" ∈ (getWrongRequiresInFile c1GetTypes [] [] c1Source
        (sortProvidesDesc ["ns.Foo"])).1.missingRequires) := by decide

/-- C1 amended: doc-comment type resolutions never enter `missingRequires`
(which is computed from code-identifier resolutions only); they are consulted
only to keep a declared require out of `unnecessaryRequires`.  On the spec's
example the file's `missing` list stays empty, and when the file requires
`ns.Foo`, the doc usage keeps `ns.Foo` out of `unnecessary`. -/
theorem docType_only_shields_unnecessary :
    (getWrongRequiresInFile c1GetTypes [] [] c1Source
        (sortProvidesDesc ["ns.Foo"])).1.missingRequires = [] ∧
    (getWrongRequiresInFile c1GetTypes [] [] c1SourceRequiring
        (sortProvidesDesc ["ns.Foo"])).1.unnecessaryRequires = [] :=
  ⟨by decide, by decide⟩

/-! ## Claims about the ModuleDepsWriter -/

/-- C9: with a custom wrapper installed, `_getDepFileContent` still pipes the
wrapper's output through the six placeholder substitutions before it is
written; the wrapper's text is never passed along without that substitution
step. -/
theorem customWrapper_still_substituted (ctx : WriterCtx) (m : JsModule)
    (w : WriterCtx → ModuleView → String) (h : m.wrapper = some w) :
    getDepFileContent ctx m = applyPlaceholders ctx m.view (w ctx m.view) := by
  unfold getDepFileContent
  rw [h]

def c9Ctx : WriterCtx :=
  ⟨"\x7b\x7d", "\x7b\x7d", "\x7b\x7d", "http://example.com/app/", "out/", false,
   id, id, fun _ p => p⟩

def c9Wrapper : WriterCtx → ModuleView → String :=
  fun _ _ => "var moduleName = \x27%name%\x27;"

def c9Module : JsModule := ⟨⟨"main", [], false⟩, some c9Wrapper, []⟩

theorem customWrapper_still_substituted_witness :
    getDepFileContent c9Ctx c9Module =
      applyPlaceholders c9Ctx c9Module.view (c9Wrapper c9Ctx c9Module.view) :=
  customWrapper_still_substituted c9Ctx c9Module c9Wrapper rfl

/-- C7: when a cache is configured and parsing succeeded, a failure reported
by `cache.save`'s callback is only logged via `console.error`: the callback
result and the attempted artifact writes are exactly those of a run whose
save succeeds (writing proceeds; the run's reported outcome is the write
phase's outcome, unaffected by the save failure), and the failure appears in
the log. -/
theorem cacheSaveFailure_logged_not_propagated (e : String) (root : JsModule)
    (write : String → String → Option String) (ctx : WriterCtx) :
    (buildResult true (some e) (Except.ok root) write ctx).1 =
        (createDepFiles write ctx root).2 ∧
    (buildResult true (some e) (Except.ok root) write ctx).1 =
        (buildResult true none (Except.ok root) write ctx).1 ∧
    (buildResult true (some e) (Except.ok root) write ctx).2.2 =
        (buildResult true none (Except.ok root) write ctx).2.2 ∧
    (buildResult true (some e) (Except.ok root) write ctx).2.1 = [e] :=
  ⟨rfl, rfl, rfl, rfl⟩

/-! ## Claim C4: serialized parent-before-child artifact writing -/

theorem takeThrough_eq_self {α} (p : α → Bool) (l : List α)
    (h : ∀ a ∈ l, p a = false) : takeThrough p l = l := by
  induction l with
  | nil => rfl
  | cons a as ih =>
    simp [takeThrough, h a (by simp), ih (fun b hb => h b (by simp [hb]))]

theorem takeThrough_append_of_none {α} (p : α → Bool) (l1 l2 : List α)
    (h : ∀ a ∈ l1, p a = false) :
    takeThrough p (l1 ++ l2) = l1 ++ takeThrough p l2 := by
  induction l1 with
  | nil => simp
  | cons a as ih =>
    simp [takeThrough, h a (by simp), ih (fun b hb => h b (by simp [hb]))]

theorem takeThrough_append_of_some {α} (p : α → Bool) (l1 l2 : List α)
    (h : (l1.find? p).isSome) :
    takeThrough p (l1 ++ l2) = takeThrough p l1 := by
  induction l1 with
  | nil => simp [List.find?] at h
  | cons a as ih =>
    cases hpa : p a with
    | true => simp [takeThrough, hpa]
    | false =>
      have hs : (as.find? p).isSome := by
        simpa [List.find?_cons, hpa] using h
      simp [takeThrough, hpa, ih hs]

theorem find?_append_of_none {α} (p : α → Bool) (l1 l2 : List α)
    (h : l1.find? p = none) : (l1 ++ l2).find? p = l2.find? p := by
  induction l1 with
  | nil => simp
  | cons a as ih =>
    cases hpa : p a with
    | true => simp [List.find?_cons, hpa] at h
    | false =>
      have hn : as.find? p = none := by simpa [List.find?_cons, hpa] using h
      simpa [List.find?_cons, hpa] using ih hn

theorem find?_append_of_some {α} (p : α → Bool) (l1 l2 : List α) (a : α)
    (h : l1.find? p = some a) : (l1 ++ l2).find? p = some a := by
  induction l1 with
  | nil => simp at h
  | cons b bs ih =>
    cases hpb : p b with
    | true =>
      have : b = a := by simpa [List.find?_cons, hpb] using h
      simpa [List.find?_cons, hpb] using this
    | false =>
      have hb : bs.find? p = some a := by simpa [List.find?_cons, hpb] using h
      simpa [List.find?_cons, hpb] using ih hb

mutual

theorem createDepFiles_spec (write : String → String → Option String)
    (ctx : WriterCtx) (m : JsModule) :
    (createDepFiles write ctx m).1 =
        takeThrough (fun fc => (write fc.2 fc.1).isSome) (preorderPairs ctx m) ∧
      (createDepFiles write ctx m).2 =
        ((preorderPairs ctx m).find? (fun fc => (write fc.2 fc.1).isSome)).bind
          (fun fc => write fc.2 fc.1) := by
  cases hw : write (getDepFileContent ctx m) (ctx.outputPathPrefix ++ m.view.name ++ ".js") with
  | some err =>
    constructor
    · simp [createDepFiles, preorderPairs, takeThrough, hw]
    · simp [createDepFiles, preorderPairs, List.find?_cons, hw]
  | none =>
    obtain ⟨ih1, ih2⟩ := createDepFilesList_spec write ctx m.subModules
    constructor
    · simp [createDepFiles, preorderPairs, takeThrough, hw, ih1]
    · simp [createDepFiles, preorderPairs, List.find?_cons, hw, ih2]
termination_by sizeOf m
decreasing_by all_goals (simp_wf; (try cases m); (try simp); (try omega))

theorem createDepFilesList_spec (write : String → String → Option String)
    (ctx : WriterCtx) (ms : List JsModule) :
    (createDepFilesList write ctx ms).1 =
        takeThrough (fun fc => (write fc.2 fc.1).isSome) (preorderPairsList ctx ms) ∧
      (createDepFilesList write ctx ms).2 =
        ((preorderPairsList ctx ms).find?
            (fun fc => (write fc.2 fc.1).isSome)).bind
          (fun fc => write fc.2 fc.1) := by
  match ms with
  | [] =>
    constructor
    · simp [createDepFilesList, preorderPairsList, takeThrough]
    · simp [createDepFilesList, preorderPairsList]
  | s :: ss =>
    obtain ⟨h1, h2⟩ := createDepFiles_spec write ctx s
    obtain ⟨h3, h4⟩ := createDepFilesList_spec write ctx ss
    have hpre : preorderPairsList ctx (s :: ss) =
        preorderPairs ctx s ++ preorderPairsList ctx ss := by
      simp [preorderPairsList]
    cases hfst : (createDepFiles write ctx s).2 with
    | some e =>
      have hlist : createDepFilesList write ctx (s :: ss) =
          ((createDepFiles write ctx s).1, some e) := by
        simp [createDepFilesList, hfst]
      have hbind :
          ((preorderPairs ctx s).find? (fun fc => (write fc.2 fc.1).isSome)).bind
            (fun fc => write fc.2 fc.1) = some e := by rw [← h2, hfst]
      cases hfind : (preorderPairs ctx s).find? (fun fc => (write fc.2 fc.1).isSome) with
      | none =>
        rw [hfind] at hbind
        simp only [Option.none_bind] at hbind
        exact Option.noConfusion hbind
      | some fc =>
        rw [hfind] at hbind
        simp only [Option.some_bind] at hbind
        constructor
        · rw [hlist, hpre, takeThrough_append_of_some _ _ _ (by rw [hfind]; rfl)]
          exact h1
        · rw [hlist, hpre, find?_append_of_some _ _ _ _ hfind]
          simp [hbind]
    | none =>
      have hlist : createDepFilesList write ctx (s :: ss) =
          ((createDepFiles write ctx s).1 ++ (createDepFilesList write ctx ss).1,
            (createDepFilesList write ctx ss).2) := by
        simp [createDepFilesList, hfst]
      have hbind :
          ((preorderPairs ctx s).find? (fun fc => (write fc.2 fc.1).isSome)).bind
            (fun fc => write fc.2 fc.1) = none := by rw [← h2, hfst]
      have hfind : (preorderPairs ctx s).find? (fun fc => (write fc.2 fc.1).isSome) = none := by
        cases hf : (preorderPairs ctx s).find? (fun fc => (write fc.2 fc.1).isSome) with
        | none => rfl
        | some fc =>
          have hp := List.find?_some hf
          rw [hf] at hbind
          simp only [Option.some_bind] at hbind
          rw [hbind] at hp
          simp at hp
      have hall : ∀ a ∈ preorderPairs ctx s, (fun fc => (write fc.2 fc.1).isSome) a = false := by
        intro a ha
        have := List.find?_eq_none.mp hfind a ha
        simpa using this
      have h1' : (createDepFiles write ctx s).1 = preorderPairs ctx s := by
        rw [h1, takeThrough_eq_self _ _ hall]
      constructor
      · rw [hlist, hpre, takeThrough_append_of_none _ _ _ hall]
        simp [h1', h3]
      · rw [hlist, hpre, find?_append_of_none _ _ _ hfind]
        exact h4
termination_by sizeOf ms
decreasing_by all_goals (simp_wf; (try simp); (try omega))

end

/-- C4: artifacts are written strictly serialized in depth-first,
parent-before-child, child-list order (`preorderPairs`); the attempted writes
are exactly the preorder prefix up to and including the first failing write,
so on the first failure nothing after it — including the failed bundle's
children — is attempted, and the error passed to the callback is exactly the
first failing write's error (`none` when every write succeeds). -/
theorem depFiles_written_parent_first (write : String → String → Option String)
    (ctx : WriterCtx) (m : JsModule) :
    (createDepFiles write ctx m).1 =
        takeThrough (fun fc => (write fc.2 fc.1).isSome) (preorderPairs ctx m) ∧
      (createDepFiles write ctx m).2 =
        ((preorderPairs ctx m).find? (fun fc => (write fc.2 fc.1).isSome)).bind
          (fun fc => write fc.2 fc.1) :=
  createDepFiles_spec write ctx m

/-! ## Claim C3: the async writer state machine orders writes by index -/

theorem range_split (li m : Nat) (h : li ≤ m) :
    List.range m = List.range li ++ List.range' li (m - li) := by
  rw [List.range_eq_range', List.range_eq_range']
  have h2 := List.range'_append 0 li (m - li) 1
  simp only [Nat.zero_add, Nat.one_mul] at h2
  have h3 : (m - li) + li = m := by omega
  rw [h3] at h2
  exact h2.symm

/-- Behavior of `writeNextScript`: it advances from `loadedIndex` through the
consecutively completed slots up to some index `m`, stopping either at the
first pending slot or — past the last index — at the completion hook, and
(when no completed text is empty) emits exactly the writes of the traversed
indices in increasing order. -/
theorem writeNextScript_spec (scriptTexts : List (Option String)) (loadedIndex : Nat)
    (hne : ∀ (j : Nat) (t : String), scriptTexts[j]? = some (some t) → t ≠ "")
    (hli : loadedIndex ≤ scriptTexts.length) :
    ∃ m, loadedIndex ≤ m ∧ m ≤ scriptTexts.length ∧
      (∀ j, loadedIndex ≤ j → j < m → ∃ t, scriptTexts[j]? = some (some t)) ∧
      (m = scriptTexts.length ∨ scriptTexts[m]? = some none) ∧
      writeNextScript scriptTexts loadedIndex =
        (m, (List.range' loadedIndex (m - loadedIndex)).map LoadEv.write ++
          (if m = scriptTexts.length then [LoadEv.hook] else [])) := by
  by_cases h : scriptTexts.length ≤ loadedIndex
  · have heq : loadedIndex = scriptTexts.length := le_antisymm hli h
    refine ⟨loadedIndex, le_refl _, hli, ?_, Or.inl heq, ?_⟩
    · intro j hj1 hj2; omega
    · unfold writeNextScript
      rw [if_pos h]
      simp [heq]
  · have hlt : loadedIndex < scriptTexts.length := by omega
    cases hslot : scriptTexts[loadedIndex]? with
    | none =>
      exfalso
      rw [List.getElem?_eq_getElem hlt] at hslot
      exact Option.noConfusion hslot
    | some slot =>
      cases slot with
      | none =>
        refine ⟨loadedIndex, le_refl _, le_of_lt hlt, ?_, Or.inr hslot, ?_⟩
        · intro j hj1 hj2; omega
        · have hne2 : ¬ loadedIndex = scriptTexts.length := by omega
          unfold writeNextScript
          rw [if_neg h, hslot]
          simp [hne2]
      | some t =>
        have ht : t ≠ "" := hne loadedIndex t hslot
        obtain ⟨m, hm1, hm2, hm3, hm4, hm5⟩ :=
          writeNextScript_spec scriptTexts (loadedIndex + 1) hne (by omega)
        refine ⟨m, by omega, hm2, ?_, hm4, ?_⟩
        · intro j hj1 hj2
          rcases Nat.eq_or_lt_of_le hj1 with heq | hj
          · exact ⟨t, heq ▸ hslot⟩
          · exact hm3 j (by omega) hj2
        · unfold writeNextScript
          rw [if_neg h, hslot]
          have hbeq : (t == "") = false := beq_eq_false_iff_ne.mpr ht
          have hmr : m - loadedIndex = (m - (loadedIndex + 1)) + 1 := by omega
          rw [hm5]
          simp only [hbeq, if_false, hmr, List.range'_succ, List.map_cons]
          simp
termination_by scriptTexts.length - loadedIndex
decreasing_by simp_wf; omega

/-- The invariant tying a loader state to the set `S` of already-completed
fetch indices: every slot of an index in `S` holds its text, `loadedIndex` is
a maximal fully-completed prefix, and the output is exactly the writes of
that prefix (plus the hook once the prefix is everything). -/
structure LoaderInv (n : Nat) (texts : Nat → String) (S : List Nat)
    (st : LoaderState) : Prop where
  len : st.scriptTexts.length = n
  slots : ∀ j, j < n →
    st.scriptTexts[j]? = some (if j ∈ S then some (texts j) else none)
  liLe : st.loadedIndex ≤ n
  prefDone : ∀ j, j < st.loadedIndex → j ∈ S
  liFree : st.loadedIndex = n ∨ st.loadedIndex ∉ S
  out : st.output = (List.range st.loadedIndex).map LoadEv.write ++
          (if st.loadedIndex = n then [LoadEv.hook] else [])

/-- Completing a not-yet-completed fetch `i` preserves the invariant. -/
theorem loadCallback_inv {n : Nat} {texts : Nat → String} {S : List Nat}
    {st : LoaderState} (inv : LoaderInv n texts S st) (i : Nat) (hi : i < n)
    (hiS : i ∉ S) (hne : ∀ j, j < n → texts j ≠ "") :
    LoaderInv n texts (S ++ [i]) (loadCallback st i (texts i)) := by
  have hliN : st.loadedIndex < n := by
    rcases Nat.eq_or_lt_of_le inv.liLe with heq | hlt
    · exact absurd (inv.prefDone i (by omega)) hiS
    · exact hlt
  have hliS : st.loadedIndex ∉ S := by
    rcases inv.liFree with h | h
    · omega
    · exact h
  have hlen' : (st.scriptTexts.set i (some (texts i))).length = n := by
    simp [inv.len]
  have hget : ∀ j, j < n → (st.scriptTexts.set i (some (texts i)))[j]? =
      some (if j ∈ S ++ [i] then some (texts j) else none) := by
    intro j hj
    rw [List.getElem?_set]
    by_cases hji : i = j
    · subst hji
      simp [inv.len, hi]
    · have hmem : (j ∈ S ++ [i]) ↔ j ∈ S := by
        simp only [List.mem_append, List.mem_singleton]
        constructor
        · rintro (hs | rfl)
          · exact hs
          · exact absurd rfl hji
        · exact Or.inl
      rw [if_neg hji, inv.slots j hj]
      simp only [hmem]
  have hne' : ∀ (j : Nat) (t : String),
      (st.scriptTexts.set i (some (texts i)))[j]? = some (some t) → t ≠ "" := by
    intro j t hjt
    by_cases hj : j < n
    · rw [hget j hj] at hjt
      by_cases hjS : j ∈ S ++ [i]
      · rw [if_pos hjS] at hjt
        have : texts j = t := by
          have := Option.some.inj hjt
          exact Option.some.inj this
        exact this ▸ hne j hj
      · rw [if_neg hjS] at hjt
        exact Option.noConfusion (Option.some.inj hjt)
    · rw [List.getElem?_eq_none (by omega : (st.scriptTexts.set i (some (texts i))).length ≤ j)] at hjt
      exact Option.noConfusion hjt
  obtain ⟨m, hm1, hm2, hm3, hm4, hm5⟩ :=
    writeNextScript_spec (st.scriptTexts.set i (some (texts i))) st.loadedIndex hne'
      (by omega)
  have hmn : m ≤ n := by omega
  have hpref : ∀ j, j < m → j ∈ S ++ [i] := by
    intro j hj
    by_cases hjli : j < st.loadedIndex
    · exact List.mem_append_left _ (inv.prefDone j hjli)
    · obtain ⟨t, hslot⟩ := hm3 j (by omega) hj
      have hjn : j < n := by omega
      rw [hget j hjn] at hslot
      by_cases hjS : j ∈ S ++ [i]
      · exact hjS
      · rw [if_neg hjS] at hslot
        exact absurd (Option.some.inj hslot) (by simp)
  have hfree : m = n ∨ m ∉ S ++ [i] := by
    rcases hm4 with h | h
    · exact Or.inl (by omega)
    · right
      intro hmem
      have hmn' : m < n := by
        by_contra hge
        have hmeq : m = n := by omega
        rw [hmeq] at h
        rw [List.getElem?_eq_none
          (by omega : (st.scriptTexts.set i (some (texts i))).length ≤ n)] at h
        exact Option.noConfusion h
      rw [hget m hmn', if_pos hmem] at h
      exact Option.noConfusion (Option.some.inj h)
  have hout2 : st.output ++
      ((List.range' st.loadedIndex (m - st.loadedIndex)).map LoadEv.write ++
        (if m = (st.scriptTexts.set i (some (texts i))).length then [LoadEv.hook] else [])) =
      (List.range m).map LoadEv.write ++ (if m = n then [LoadEv.hook] else []) := by
    have hout := inv.out
    rw [if_neg (by omega : ¬ st.loadedIndex = n)] at hout
    simp only [List.append_nil] at hout
    rw [hout, hlen', range_split st.loadedIndex m hm1]
    simp [List.append_assoc]
  have hstep : loadCallback st i (texts i) =
      ⟨st.scriptTexts.set i (some (texts i)), m,
        st.output ++ ((List.range' st.loadedIndex (m - st.loadedIndex)).map LoadEv.write ++
          (if m = (st.scriptTexts.set i (some (texts i))).length then [LoadEv.hook] else []))⟩ := by
    unfold loadCallback
    rw [hm5]
  rw [hstep]
  exact ⟨hlen', hget, hmn, hpref, hfree, hout2⟩

/-- The invariant is preserved along any sequence of distinct in-range
fetch completions. -/
theorem loader_run_inv (n : Nat) (texts : Nat → String)
    (hne : ∀ j, j < n → texts j ≠ "") (evs : List Nat) :
    ∀ (S : List Nat) (st : LoaderState), LoaderInv n texts S st →
      (∀ i ∈ evs, i < n) → (S ++ evs).Nodup →
      LoaderInv n texts (S ++ evs)
        (evs.foldl (fun s i => loadCallback s i (texts i)) st) := by
  induction evs with
  | nil =>
    intro S st hInv _ _
    simpa using hInv
  | cons i rest ih =>
    intro S st hInv hlt hnd
    have hiS : i ∉ S := by
      rw [List.nodup_append] at hnd
      exact fun hmem => hnd.2.2 hmem (by simp)
    have h1 := loadCallback_inv hInv i (hlt i (by simp)) hiS hne
    have h2 := ih (S ++ [i]) (loadCallback st i (texts i)) h1
      (fun j hj => hlt j (by simp [hj]))
      (by simpa [List.append_assoc] using hnd)
    simpa [List.append_assoc] using h2

/-- C3: one slot per dependency plus a next-write index; each fetch completion
stores its text at its list index, and the writer advances from the lowest
unwritten index through consecutively available slots, stopping at the first
unavailable one.  Hence for any completion order (any permutation of the
indices) the generated scripts are written in dependency-list index order
`0, 1, …, n-1`, and the global completion hook fires exactly once, after the
final entry is written. -/
theorem asyncLoader_writes_in_order (n : Nat) (texts : Nat → String)
    (order : List Nat) (hn : 0 < n) (hperm : order.Perm (List.range n))
    (hne : ∀ i, i < n → texts i ≠ "") :
    (runLoader n (order.map (fun i => (i, texts i)))).output =
      (List.range n).map LoadEv.write ++ [LoadEv.hook] := by
  have h0n : ¬ (0 : Nat) = n := by omega
  have hInv0 : LoaderInv n texts [] ⟨List.replicate n none, 0, []⟩ := by
    refine ⟨?_, ?_, ?_, ?_, ?_, ?_⟩
    · simp
    · intro j hj
      simp [List.getElem?_replicate, hj]
    · simp
    · intro j hj
      simp at hj
    · right; simp
    · simp [h0n]
  have hall : ∀ i ∈ order, i < n := by
    intro i hi
    have : i ∈ List.range n := hperm.subset hi
    simpa using this
  have hnd : (([] : List Nat) ++ order).Nodup := by
    simpa using hperm.nodup_iff.mpr (List.nodup_range n)
  have hrun := loader_run_inv n texts hne order [] ⟨List.replicate n none, 0, []⟩
    hInv0 hall hnd
  simp only [List.nil_append] at hrun
  have hfold : runLoader n (order.map (fun i => (i, texts i))) =
      order.foldl (fun s i => loadCallback s i (texts i))
        ⟨List.replicate n none, 0, []⟩ := by
    unfold runLoader
    rw [List.foldl_map]
  rw [hfold]
  have hli : (order.foldl (fun s i => loadCallback s i (texts i))
      ⟨List.replicate n none, 0, []⟩).loadedIndex = n := by
    rcases hrun.liFree with h | h
    · exact h
    · by_contra hne2
      have hlt : (order.foldl (fun s i => loadCallback s i (texts i))
          ⟨List.replicate n none, 0, []⟩).loadedIndex < n :=
        lt_of_le_of_ne hrun.liLe hne2
      exact h (hperm.mem_iff.mpr (by simpa using hlt))
  have hout := hrun.out
  rw [hli, if_pos rfl] at hout
  exact hout

theorem asyncLoader_writes_in_order_witness :
    (runLoader 3 (([2, 0, 1] : List Nat).map
        (fun i => (i, (fun _ : Nat => "x") i)))).output =
      (List.range 3).map LoadEv.write ++ [LoadEv.hook] :=
  asyncLoader_writes_in_order 3 (fun _ => "x") [2, 0, 1] (by decide) (by decide)
    (fun i _ => by simp)
